import Mathlib

/-!
Shallow embedding of the bestbuy2 inventory core: `products.py`
(`Product`, `NonStockedProduct`, `LimitedProduct`, the promotion classes)
and `store.py` (`Store`).

Modelling choices:
* Python numbers are modelled by rationals (`ℚ`); the dynamic distinction
  that `isinstance(x, int)` draws between `int` and `float` arguments is
  captured by the wrapper type `PyNum`.
* Raising `ValueError` is modelled by returning `Except Err _`; the distinct
  error messages of the source are mapped to the constructors of `Err`.
* Mutation of a product is modelled by state passing: each operation
  returns its result together with the (possibly updated) product, and an
  operation that raises returns the product unchanged, mirroring the fact
  that the source raises before performing any assignment.
* The three product classes become one `Product` structure with a
  `variant` tag, whose `buy` reproduces the overridden methods branch by
  branch.
* `Store.order`'s shopping list holds object references into the store's
  product list; this aliasing is modelled by indices into the list.
-/

/-- A Python numeric argument: `isinstance(x, int)` distinguishes an `int`
from a `float` even when their values coincide. -/
inductive PyNum where
  | int : ℤ → PyNum
  | float : ℚ → PyNum
deriving DecidableEq, Repr

/-- The numeric value of a Python number. -/
def PyNum.val : PyNum → ℚ
  | .int n => (n : ℚ)
  | .float x => x

/-- Python's `isinstance(x, int)`. -/
def PyNum.isInt : PyNum → Bool
  | .int _ => true
  | .float _ => false

/-- The error kinds raised by the core, one per distinct `ValueError`
message family of the source. -/
inductive Err where
  | invalidAttribute
  | invalidQuantity
  | insufficientStock
  | exceedsOrderLimit
  | duplicateProduct
deriving DecidableEq, Repr

/-- The promotion classes of `products.py`: each carries the display name
given at construction, `PercentDiscount` also its percent parameter. -/
inductive Promotion where
  | secondHalfPrice (name : String)
  | thirdOneFree (name : String)
  | percentDiscount (name : String) (percent : ℚ)
deriving DecidableEq, Repr

/-- `apply_promotion` of each promotion class. The source methods receive
the product and read `product.price`; here the price is passed directly.
Python's floor division `//` on a positive quantity is `⌊·⌋`. -/
def Promotion.apply_promotion (promo : Promotion) (price : ℚ) (quantity : ℚ) : ℚ :=
  match promo with
  | .secondHalfPrice _ =>
      if quantity = 1 then price
      else
        let full_price_quantity : ℚ := (⌊quantity / 2⌋ : ℤ)
        let half_price_quantity : ℚ := quantity - full_price_quantity
        full_price_quantity * price + half_price_quantity * price / 2
  | .thirdOneFree _ =>
      let free_quantity : ℚ := (⌊quantity / 3⌋ : ℤ)
      let paid_quantity : ℚ := quantity - free_quantity
      paid_quantity * price
  | .percentDiscount _ percent =>
      let total_price := price * quantity
      let discount := total_price * (percent / 100)
      total_price - discount

/-- The subclass a product instance belongs to: `Product` itself,
`NonStockedProduct`, or `LimitedProduct` with its `maximum`. -/
inductive Variant where
  | standard
  | nonStocked
  | limited (maximum : ℤ)
deriving DecidableEq, Repr

/-- The state of a product object: the attributes set by
`Product.__init__` plus the variant tag. `quantity` is kept as a rational
because `LimitedProduct.buy` and `NonStockedProduct.buy` never check
`isinstance(quantity, int)` and can therefore store a float back. -/
structure Product where
  name : String
  price : ℚ
  quantity : ℚ
  active : Bool
  promotion : Option Promotion
  variant : Variant
deriving DecidableEq, Repr

instance : Inhabited Product := ⟨⟨"", 0, 0, true, none, .standard⟩⟩

/-- `Product.__init__` with an explicit variant: validates the name, the
price and the quantity, then sets `active = True` and `promotion = None`.
`NonStockedProduct.__init__` calls it with quantity 0;
`LimitedProduct.__init__` additionally stores `maximum`. -/
def mkProductWith (variant : Variant) (name : String) (price : ℚ) (quantity : ℤ) :
    Except Err Product :=
  if name = "" then .error .invalidAttribute
  else if price < 0 then .error .invalidAttribute
  else if quantity < 0 then .error .invalidAttribute
  else .ok ⟨name, price, (quantity : ℚ), true, none, variant⟩

/-- `Product(name, price, quantity)`. -/
def mkProduct (name : String) (price : ℚ) (quantity : ℤ) : Except Err Product :=
  mkProductWith .standard name price quantity

/-- `NonStockedProduct(name, price)`: quantity is forced to 0. -/
def mkNonStockedProduct (name : String) (price : ℚ) : Except Err Product :=
  mkProductWith .nonStocked name price 0

/-- `LimitedProduct(name, price, quantity, maximum)`: `maximum` is stored
unvalidated. -/
def mkLimitedProduct (name : String) (price : ℚ) (quantity : ℤ) (maximum : ℤ) :
    Except Err Product :=
  mkProductWith (.limited maximum) name price quantity

/-- `Product.deactivate`: sets `active = False` and returns `True`. -/
def Product.deactivate (p : Product) : Bool × Product :=
  (true, { p with active := false })

/-- `Product.activate`: sets `active = True` only when `quantity > 0`,
returning whether it did. -/
def Product.activate (p : Product) : Bool × Product :=
  if p.quantity > 0 then (true, { p with active := true })
  else (false, p)

/-- `Product.set_quantity`: rejects a non-`int` or negative value, stores
the new quantity, and deactivates when it is 0. -/
def Product.set_quantity (p : Product) (quantity : PyNum) : Except Err Unit × Product :=
  if quantity.isInt = false ∨ quantity.val < 0 then (.error .invalidQuantity, p)
  else
    let p₁ := { p with quantity := quantity.val }
    if quantity.val = 0 then (.ok (), (p₁.deactivate).2)
    else (.ok (), p₁)

/-- The total price a buy computes once its checks have passed: the
promotion's `apply_promotion` when one is attached, else
`quantity * self.price`. -/
def Product.buyTotal (p : Product) (qv : ℚ) : ℚ :=
  match p.promotion with
  | some promo => promo.apply_promotion p.price qv
  | none => qv * p.price

/-- The `buy` method, dispatched on the variant exactly as the three
overridden methods do:
* `Product.buy` checks `isinstance(quantity, int)` and positivity, then
  stock; on success it decrements `quantity` and deactivates at 0.
* `NonStockedProduct.buy` checks positivity only (no `isinstance`, no
  stock check) and performs no mutation.
* `LimitedProduct.buy` checks positivity (no `isinstance`), then the
  per-order `maximum`, then stock; on success it mutates like the base
  class. -/
def Product.buy (p : Product) (quantity : PyNum) : Except Err ℚ × Product :=
  match p.variant with
  | .standard =>
      if quantity.isInt = false ∨ quantity.val ≤ 0 then (.error .invalidQuantity, p)
      else if quantity.val > p.quantity then (.error .insufficientStock, p)
      else
        let total_price := p.buyTotal quantity.val
        let newQuantity := p.quantity - quantity.val
        (.ok total_price,
         { p with quantity := newQuantity,
                  active := if newQuantity = 0 then false else p.active })
  | .nonStocked =>
      if quantity.val ≤ 0 then (.error .invalidQuantity, p)
      else (.ok (p.buyTotal quantity.val), p)
  | .limited maximum =>
      if quantity.val ≤ 0 then (.error .invalidQuantity, p)
      else if quantity.val > (maximum : ℚ) then (.error .exceedsOrderLimit, p)
      else if quantity.val > p.quantity then (.error .insufficientStock, p)
      else
        let total_price := p.buyTotal quantity.val
        let newQuantity := p.quantity - quantity.val
        (.ok total_price,
         { p with quantity := newQuantity,
                  active := if newQuantity = 0 then false else p.active })

/-- The store: an ordered list of products. -/
structure Store where
  products : List Product
deriving Repr

/-- `Store.get_total_quantity`: the sum of `quantity` over every stored
product, active or not. -/
def Store.get_total_quantity (s : Store) : ℚ :=
  (s.products.map Product.quantity).sum

/-- `Store.get_all_products`: the active products, in stored order. -/
def Store.get_all_products (s : Store) : List Product :=
  s.products.filter (fun product => product.active)

/-- The loop of `Store.order`: process each (product, quantity) line in
order, accumulating the total; a line whose `buy` raises aborts the loop,
leaving the mutations of the earlier lines in place. Lines refer to
products by position in the store's list, modelling Python's object
references. -/
def orderAux : List Product → List (ℕ × PyNum) → ℚ → Except Err ℚ × List Product
  | products, [], total_price => (.ok total_price, products)
  | products, (i, quantity) :: rest, total_price =>
      match (products.getD i default).buy quantity with
      | (.error e, _) => (.error e, products)
      | (.ok line_price, p₁) => orderAux (products.set i p₁) rest (total_price + line_price)

/-- `Store.order(shopping_list)`. -/
def Store.order (s : Store) (shopping_list : List (ℕ × PyNum)) : Except Err ℚ × Store :=
  let r := orderAux s.products shopping_list 0
  (r.1, ⟨r.2⟩)

/-- C1: for a stock-tracked product (Standard, or Limited with `q ≤ maximum`)
with stock `s = p.quantity` and an integer purchase quantity `q` with
`1 ≤ q ≤ s`, `buy` succeeds, returns the promotion total when a promotion is
attached and `price * q` otherwise (`buyTotal`), stores quantity `s - q`, and
sets `active` to `false` exactly when the resulting quantity is 0 (leaving it
unchanged otherwise). -/
theorem buy_success_spec (p : Product) (q m : ℤ)
    (hq : 1 ≤ q) (hs : (q : ℚ) ≤ p.quantity)
    (hv : p.variant = .standard ∨ (p.variant = .limited m ∧ q ≤ m)) :
    p.buy (.int q) =
      (.ok (p.buyTotal (q : ℚ)),
       { p with quantity := p.quantity - (q : ℚ),
                active := if p.quantity - (q : ℚ) = 0 then false else p.active }) := by
  have h0 : ¬ ((q : ℚ) ≤ 0) := by
    push_neg
    exact_mod_cast lt_of_lt_of_le Int.zero_lt_one hq
  have hns : ¬ ((q : ℚ) > p.quantity) := not_lt.mpr hs
  rcases hv with h | ⟨h, hm⟩
  · simp only [Product.buy, h, PyNum.isInt, PyNum.val]
    rw [if_neg (by simp [h0]), if_neg hns]
  · have hm' : ¬ ((q : ℚ) > (m : ℚ)) := by
      push_neg
      exact_mod_cast hm
    simp only [Product.buy, h, PyNum.isInt, PyNum.val]
    rw [if_neg h0, if_neg hm', if_neg hns]

theorem buy_success_spec_witness :
    (⟨"MacBook Air M2", 1450, 100, true, none, .standard⟩ : Product).buy (.int 50) =
      (.ok 72500, ⟨"MacBook Air M2", 1450, 50, true, none, .standard⟩) := by
  have h := buy_success_spec ⟨"MacBook Air M2", 1450, 100, true, none, .standard⟩ 50 0
    (by norm_num) (by norm_num) (Or.inl rfl)
  norm_num [Product.buyTotal] at h
  exact h

/-- C2: whenever `buy` fails, for any variant and any reason, the product's
quantity and active flag are unchanged. -/
theorem buy_failure_no_side_effects (p : Product) (q : PyNum) (e : Err)
    (h : (p.buy q).1 = .error e) :
    (p.buy q).2.quantity = p.quantity ∧ (p.buy q).2.active = p.active := by
  suffices hsame : (p.buy q).2 = p by rw [hsame]; exact ⟨rfl, rfl⟩
  cases hv : p.variant with
  | standard =>
      simp only [Product.buy, hv] at h ⊢
      split_ifs at h ⊢
      all_goals simp_all
  | nonStocked =>
      simp only [Product.buy, hv] at h ⊢
      split_ifs at h ⊢
      all_goals simp_all
  | limited m =>
      simp only [Product.buy, hv] at h ⊢
      split_ifs at h ⊢
      all_goals simp_all

theorem buy_failure_no_side_effects_witness :
    ((⟨"Pen", 2, 3, true, none, .standard⟩ : Product).buy (.int 0)).2.quantity = 3 ∧
    ((⟨"Pen", 2, 3, true, none, .standard⟩ : Product).buy (.int 0)).2.active = true :=
  buy_failure_no_side_effects ⟨"Pen", 2, 3, true, none, .standard⟩ (.int 0)
    .invalidQuantity (by simp [Product.buy, PyNum.isInt, PyNum.val])

/-- Splitting the order loop: processing `pre ++ rest` runs `pre` first and
continues with `rest` from the resulting state, unless `pre` already
failed. -/
theorem orderAux_append (pre rest : List (ℕ × PyNum)) (ps : List Product) (acc : ℚ) :
    orderAux ps (pre ++ rest) acc =
      match orderAux ps pre acc with
      | (.ok t, ps₁) => orderAux ps₁ rest t
      | (.error e, ps₁) => (.error e, ps₁) := by
  induction pre generalizing ps acc with
  | nil => simp [orderAux]
  | cons hd tl ih =>
      obtain ⟨i, q⟩ := hd
      simp only [List.cons_append, orderAux]
      rcases hb : (ps.getD i default).buy q with ⟨r, p₁⟩
      cases r with
      | error e => rfl
      | ok t => exact ih _ _

/-- C3: `Store.order` processes the shopping list in order. If the lines of
`pre` all succeed (yielding running total `t₀` and product state `ps₁`) and
the next line's `buy` fails with `e`, the whole order fails with that same
`e`, the lines after it are not processed (any `post` gives the same
outcome), and the decrements of `pre` remain applied (final state `ps₁`).
If the next line's `buy` succeeds with total `t`, the running total becomes
`t₀ + t` and the line's product update is stored; with the empty order
returning total 0, every all-successful order returns the sum of its
per-line totals. -/
theorem store_order_spec (s : Store) (pre post : List (ℕ × PyNum)) (i : ℕ) (q : PyNum)
    (t₀ : ℚ) (ps₁ : List Product)
    (hpre : orderAux s.products pre 0 = (.ok t₀, ps₁)) :
    (∀ e, ((ps₁.getD i default).buy q).1 = .error e →
       s.order (pre ++ (i, q) :: post) = (.error e, ⟨ps₁⟩)) ∧
    (∀ t p₁, (ps₁.getD i default).buy q = (.ok t, p₁) →
       s.order (pre ++ [(i, q)]) = (.ok (t₀ + t), ⟨ps₁.set i p₁⟩)) ∧
    s.order [] = (.ok 0, s) := by
  refine ⟨?_, ?_, by simp [Store.order, orderAux]⟩
  · intro e he
    rcases hb : (ps₁.getD i default).buy q with ⟨r, p₂⟩
    rw [hb] at he
    cases r with
    | error e' =>
        have hee : e' = e := by simpa using he
        subst hee
        have h : orderAux s.products (pre ++ (i, q) :: post) 0 =
            orderAux ps₁ ((i, q) :: post) t₀ := by
          have h₀ := orderAux_append pre ((i, q) :: post) s.products 0
          rw [hpre] at h₀
          exact h₀
        have h₂ : orderAux ps₁ ((i, q) :: post) t₀ = (.error e', ps₁) := by
          simp only [orderAux]
          rw [hb]
        show ((orderAux s.products (pre ++ (i, q) :: post) 0).1,
              Store.mk (orderAux s.products (pre ++ (i, q) :: post) 0).2) = _
        rw [h, h₂]
    | ok t => simp at he
  · intro t p₁ hb
    have h : orderAux s.products (pre ++ [(i, q)]) 0 = orderAux ps₁ [(i, q)] t₀ := by
      have h₀ := orderAux_append pre [(i, q)] s.products 0
      rw [hpre] at h₀
      exact h₀
    have h₂ : orderAux ps₁ [(i, q)] t₀ = (.ok (t₀ + t), ps₁.set i p₁) := by
      simp only [orderAux]
      rw [hb]
    show ((orderAux s.products (pre ++ [(i, q)]) 0).1,
          Store.mk (orderAux s.products (pre ++ [(i, q)]) 0).2) = _
    rw [h, h₂]

theorem store_order_spec_witness :
    Store.order ⟨[⟨"A", 10, 2, true, none, .standard⟩, ⟨"B", 5, 3, true, none, .standard⟩]⟩
        [(0, .int 1), (1, .int 5), (0, .int 1)] =
      (.error .insufficientStock,
       ⟨[⟨"A", 10, 1, true, none, .standard⟩, ⟨"B", 5, 3, true, none, .standard⟩]⟩) :=
  (store_order_spec
      ⟨[⟨"A", 10, 2, true, none, .standard⟩, ⟨"B", 5, 3, true, none, .standard⟩]⟩
      [(0, .int 1)] [(0, .int 1)] 1 (.int 5) 10
      [⟨"A", 10, 1, true, none, .standard⟩, ⟨"B", 5, 3, true, none, .standard⟩]
      (by norm_num [orderAux, Product.buy, Product.buyTotal, PyNum.isInt, PyNum.val])).1
    .insufficientStock
    (by norm_num [Product.buy, PyNum.isInt, PyNum.val])

/-- C4: for a Limited product with per-order maximum `m` and any positive
integer purchase `q`: `buy` fails with ExceedsOrderLimit whenever `q > m`,
with no condition on the stock (so also when `q` exceeds both the maximum
and the stock — the maximum check precedes the stock check), and succeeds
whenever `q ≤ m` and `q ≤ stock`. -/
theorem limited_buy_maximum_spec (p : Product) (m q : ℤ)
    (hv : p.variant = .limited m) (hq : 0 < q) :
    (m < q → (p.buy (.int q)).1 = .error .exceedsOrderLimit) ∧
    (q ≤ m → (q : ℚ) ≤ p.quantity → (p.buy (.int q)).1 = .ok (p.buyTotal (q : ℚ))) := by
  have h0 : ¬ ((q : ℚ) ≤ 0) := by
    push_neg
    exact_mod_cast hq
  constructor
  · intro hm
    have hm' : ((q : ℚ) > (m : ℚ)) := by exact_mod_cast hm
    simp only [Product.buy, hv, PyNum.isInt, PyNum.val]
    rw [if_neg h0, if_pos hm']
  · intro hm hs
    have hm' : ¬ ((q : ℚ) > (m : ℚ)) := by
      push_neg
      exact_mod_cast hm
    simp only [Product.buy, hv, PyNum.isInt, PyNum.val]
    rw [if_neg h0, if_neg hm', if_neg (not_lt.mpr hs)]

theorem limited_buy_maximum_spec_witness :
    ((⟨"Shipping", 30, 10, true, none, .limited 3⟩ : Product).buy (.int 5)).1 =
      .error .exceedsOrderLimit ∧
    ((⟨"Shipping", 30, 10, true, none, .limited 3⟩ : Product).buy (.int 2)).1 = .ok 60 := by
  constructor
  · exact (limited_buy_maximum_spec ⟨"Shipping", 30, 10, true, none, .limited 3⟩ 3 5 rfl
      (by norm_num)).1 (by norm_num)
  · have h := (limited_buy_maximum_spec ⟨"Shipping", 30, 10, true, none, .limited 3⟩ 3 2 rfl
      (by norm_num)).2 (by norm_num) (by norm_num)
    norm_num [Product.buyTotal] at h
    exact h

/-- C5 counterexample: `NonStockedProduct.buy` never checks
`isinstance(quantity, int)`; the non-integer quantity 5/2 is accepted and
the purchase succeeds, instead of failing with InvalidQuantity as the claim
requires for every variant. -/
theorem nonStocked_buy_accepts_float :
    (PyNum.float (5 / 2)).isInt = false ∧
    ((⟨"License", 10, 0, true, none, .nonStocked⟩ : Product).buy (.float (5 / 2))).1 =
      .ok 25 := by
  constructor
  · rfl
  · norm_num [Product.buy, Product.buyTotal, PyNum.val]

/-- C5 amended: the base `Product.buy` fails with InvalidQuantity exactly
when the quantity is non-positive or not an integer, but
`NonStockedProduct.buy` and `LimitedProduct.buy` check only positivity:
they fail with InvalidQuantity exactly when the quantity's value is ≤ 0,
and accept positive non-integer quantities. -/
theorem buy_invalid_quantity_spec (p : Product) (q : PyNum) :
    (p.variant = .standard →
       ((p.buy q).1 = .error .invalidQuantity ↔ (q.isInt = false ∨ q.val ≤ 0))) ∧
    (p.variant = .nonStocked →
       ((p.buy q).1 = .error .invalidQuantity ↔ q.val ≤ 0)) ∧
    (∀ m, p.variant = .limited m →
       ((p.buy q).1 = .error .invalidQuantity ↔ q.val ≤ 0)) := by
  refine ⟨fun hv => ?_, fun hv => ?_, fun m hv => ?_⟩ <;>
    simp only [Product.buy, hv] <;> split_ifs <;> simp_all

theorem buy_invalid_quantity_spec_witness :
    ((⟨"Pen", 1, 5, true, none, .standard⟩ : Product).buy (.float 2)).1 =
      .error .invalidQuantity :=
  ((buy_invalid_quantity_spec ⟨"Pen", 1, 5, true, none, .standard⟩ (.float 2)).1 rfl).mpr
    (Or.inl rfl)

/-- The spec's invariant for stock-tracked products: the quantity is never
negative, and a quantity of 0 forces the product inactive. -/
def stockInvariant (p : Product) : Prop :=
  0 ≤ p.quantity ∧ (p.quantity = 0 → p.active = false)

/-- The stock-tracked variants: Standard and Limited. -/
def stockTracked (p : Product) : Prop :=
  p.variant = .standard ∨ ∃ m, p.variant = .limited m

/-- The successful-buy state update preserves the stock invariant. -/
theorem buy_mutation_invariant (p : Product) (qv : ℚ)
    (hq : qv ≤ p.quantity) :
    stockInvariant { p with quantity := p.quantity - qv,
                            active := if p.quantity - qv = 0 then false else p.active } := by
  constructor
  · show (0 : ℚ) ≤ p.quantity - qv
    linarith
  · intro h0
    have h0' : p.quantity - qv = 0 := h0
    show (if p.quantity - qv = 0 then false else p.active) = false
    rw [if_pos h0']

/-- Every `buy` either leaves the product unchanged (all failure branches
and the non-stocked variant) or, with the purchase covered by the stock,
performs the decrement-and-maybe-deactivate update. -/
theorem buy_result_cases (p : Product) (q : PyNum) :
    (p.buy q).2 = p ∨
    (q.val ≤ p.quantity ∧
      (p.buy q).2 = { p with quantity := p.quantity - q.val,
                             active := if p.quantity - q.val = 0 then false
                                       else p.active }) := by
  obtain ⟨nm, pr, qty, act, promo, var⟩ := p
  cases var with
  | standard =>
      simp only [Product.buy]
      by_cases c1 : ((PyNum.isInt q) = false ∨ q.val ≤ 0)
      · left
        rw [if_pos c1]
      · rw [if_neg c1]
        by_cases c2 : q.val > qty
        · left
          rw [if_pos c2]
        · right
          rw [if_neg c2]
          exact ⟨not_lt.mp c2, rfl⟩
  | nonStocked =>
      simp only [Product.buy]
      by_cases c1 : q.val ≤ 0
      · left
        rw [if_pos c1]
      · left
        rw [if_neg c1]
  | limited m =>
      simp only [Product.buy]
      by_cases c1 : q.val ≤ 0
      · left
        rw [if_pos c1]
      · rw [if_neg c1]
        by_cases c2 : q.val > (m : ℚ)
        · left
          rw [if_pos c2]
        · rw [if_neg c2]
          by_cases c3 : q.val > qty
          · left
            rw [if_pos c3]
          · right
            rw [if_neg c3]
            exact ⟨not_lt.mp c3, rfl⟩

/-- C6 counterexample: `Product.__init__` sets `active = True`
unconditionally, so a Standard product constructed with quantity 0 has
quantity 0 yet is active — the invariant does not hold right after
construction, contrary to the claim. -/
theorem mkProduct_zero_starts_active :
    mkProduct "Pen" 1 0 = .ok ⟨"Pen", 1, 0, true, none, .standard⟩ := by
  rfl

/-- C6 amended: for stock-tracked products, `quantity = 0 → active = false`
(together with non-negativity of the quantity) holds after every
construction with a positive initial quantity — a construction with
quantity 0 leaves the product active — and is preserved by `buy`,
`set_quantity`, `activate` and `deactivate`; in particular no purchase
drives the quantity negative, and a `buy` or `set_quantity` that leaves the
quantity at 0 deactivates the product. -/
theorem stock_invariant_spec :
    (∀ variant name price quantity p, 0 < quantity →
       mkProductWith variant name price quantity = .ok p → stockInvariant p) ∧
    (∀ p q, stockTracked p → stockInvariant p → stockInvariant (p.buy q).2) ∧
    (∀ p n, stockInvariant p → stockInvariant (p.set_quantity n).2) ∧
    (∀ p, stockInvariant p → stockInvariant (p.activate).2) ∧
    (∀ p, stockInvariant p → stockInvariant (p.deactivate).2) := by
  refine ⟨?_, ?_, ?_, ?_, ?_⟩
  · intro variant name price quantity p hq h
    rw [mkProductWith] at h
    split_ifs at h
    cases h
    constructor
    · show (0 : ℚ) ≤ (quantity : ℚ)
      exact_mod_cast hq.le
    · intro h0
      have h0' : (quantity : ℚ) = 0 := h0
      have : quantity = 0 := by exact_mod_cast h0'
      omega
  · intro p q _ hinv
    rcases buy_result_cases p q with h | ⟨hle, h⟩
    · rw [h]
      exact hinv
    · rw [h]
      exact buy_mutation_invariant p q.val hle
  · intro p n hinv
    simp only [Product.set_quantity]
    by_cases c1 : ((PyNum.isInt n) = false ∨ n.val < 0)
    · rw [if_pos c1]
      exact hinv
    · rw [if_neg c1]
      push_neg at c1
      have hge : 0 ≤ n.val := c1.2
      by_cases c2 : n.val = 0
      · rw [if_pos c2]
        exact ⟨hge, fun _ => rfl⟩
      · rw [if_neg c2]
        exact ⟨hge, fun h0 => absurd h0 c2⟩
  · intro p hinv
    simp only [Product.activate]
    by_cases c : p.quantity > 0
    · rw [if_pos c]
      refine ⟨hinv.1, fun h0 => ?_⟩
      have h0' : p.quantity = 0 := h0
      exact absurd c (by rw [h0']; exact lt_irrefl 0)
    · rw [if_neg c]
      exact hinv
  · intro p hinv
    exact ⟨hinv.1, fun _ => rfl⟩

theorem stock_invariant_spec_witness :
    stockInvariant ⟨"Pen", 1, 3, true, none, .standard⟩ :=
  stock_invariant_spec.1 .standard "Pen" 1 3 ⟨"Pen", 1, 3, true, none, .standard⟩
    (by norm_num) rfl

/-- C7 counterexample: `NonStockedProduct` inherits `set_quantity`
unchanged, so the administrative update `set_quantity(3)` stores quantity 3
on a non-stocked product — its quantity is not 0 after every operation, as
the claim requires. -/
theorem nonStocked_set_quantity_escapes :
    ((⟨"License", 10, 0, true, none, .nonStocked⟩ : Product).set_quantity (.int 3)).2.quantity
      = 3 := by
  norm_num [Product.set_quantity, PyNum.isInt, PyNum.val]

/-- C7 amended: a NonStockedProduct is constructed with quantity 0, and
`buy` returns the product completely unchanged (so it never decrements the
quantity and never deactivates); for every positive integer quantity `buy`
succeeds, so it never fails due to stock. The inherited `set_quantity`,
however, can store a nonzero quantity. -/
theorem nonStocked_spec :
    (∀ name price p, mkNonStockedProduct name price = .ok p → p.quantity = 0) ∧
    (∀ (p : Product) (q : PyNum), p.variant = .nonStocked → (p.buy q).2 = p) ∧
    (∀ (p : Product) (q : ℤ), p.variant = .nonStocked → 0 < q →
       (p.buy (.int q)).1 = .ok (p.buyTotal (q : ℚ))) := by
  refine ⟨?_, ?_, ?_⟩
  · intro name price p h
    rw [mkNonStockedProduct, mkProductWith] at h
    split_ifs at h
    cases h
    norm_num
  · intro p q hv
    obtain ⟨nm, pr, qty, act, promo, var⟩ := p
    cases var with
    | standard => cases hv
    | limited m => cases hv
    | nonStocked =>
        simp only [Product.buy]
        by_cases c : q.val ≤ 0
        · rw [if_pos c]
        · rw [if_neg c]
  · intro p q hv hq
    have h0 : ¬ ((q : ℚ) ≤ 0) := by
      push_neg
      exact_mod_cast hq
    simp only [Product.buy, hv, PyNum.val]
    rw [if_neg h0]

theorem nonStocked_spec_witness :
    ((⟨"License", 10, 0, true, none, .nonStocked⟩ : Product).buy (.int 4)).2 =
      ⟨"License", 10, 0, true, none, .nonStocked⟩ :=
  nonStocked_spec.2.1 ⟨"License", 10, 0, true, none, .nonStocked⟩ (.int 4) rfl

/-- C8 counterexample: the percent parameter of PercentDiscount is never
validated; with percent 200 a successful buy returns the negative total
-10, so the returned total is not always non-negative. -/
theorem percent_over_100_negative_total :
    ((⟨"Pen", 10, 5, true, some (.percentDiscount "Bad" 200), .standard⟩ : Product).buy
        (.int 1)).1 = .ok (-10) ∧ (-10 : ℚ) < 0 := by
  constructor
  · norm_num [Product.buy, Product.buyTotal, Promotion.apply_promotion, PyNum.isInt,
      PyNum.val]
  · norm_num

/-- An attached promotion whose parameter stays in the documented range: a
PercentDiscount percent of at most 100; the other promotions (and no
promotion) have no parameter to bound. -/
def promotionBounded : Option Promotion → Prop
  | some (.percentDiscount _ percent) => percent ≤ 100
  | _ => True

/-- With a non-negative price, a positive quantity and an in-range percent,
every promotion computes a non-negative total. -/
theorem apply_promotion_nonneg (promo : Promotion) (price qv : ℚ)
    (hp : 0 ≤ price) (hq : 0 < qv) (hb : promotionBounded (some promo)) :
    0 ≤ promo.apply_promotion price qv := by
  cases promo with
  | secondHalfPrice nm =>
      simp only [Promotion.apply_promotion]
      by_cases h1 : qv = 1
      · rw [if_pos h1]
        exact hp
      · rw [if_neg h1]
        have hf0 : (0 : ℚ) ≤ ((⌊qv / 2⌋ : ℤ) : ℚ) := by
          have h : (0 : ℤ) ≤ ⌊qv / 2⌋ := Int.floor_nonneg.mpr (by positivity)
          exact_mod_cast h
        have hfle : ((⌊qv / 2⌋ : ℤ) : ℚ) ≤ qv / 2 := Int.floor_le _
        have hh : 0 ≤ qv - ((⌊qv / 2⌋ : ℤ) : ℚ) := by linarith
        have t1 : 0 ≤ ((⌊qv / 2⌋ : ℤ) : ℚ) * price := mul_nonneg hf0 hp
        have t2 : 0 ≤ (qv - ((⌊qv / 2⌋ : ℤ) : ℚ)) * price / 2 :=
          div_nonneg (mul_nonneg hh hp) (by norm_num)
        linarith
  | thirdOneFree nm =>
      simp only [Promotion.apply_promotion]
      have hfle : ((⌊qv / 3⌋ : ℤ) : ℚ) ≤ qv / 3 := Int.floor_le _
      have hpd : 0 ≤ qv - ((⌊qv / 3⌋ : ℤ) : ℚ) := by linarith
      exact mul_nonneg hpd hp
  | percentDiscount nm percent =>
      simp only [Promotion.apply_promotion]
      have hb' : percent ≤ 100 := hb
      have hrw : price * qv - price * qv * (percent / 100) =
          price * qv * (1 - percent / 100) := by ring
      rw [hrw]
      apply mul_nonneg (mul_nonneg hp hq.le)
      linarith

/-- On a successful buy the quantity's value was positive and the returned
total is `buyTotal` at that value. -/
theorem buy_ok_total (p : Product) (q : PyNum) (t : ℚ) (h : (p.buy q).1 = .ok t) :
    0 < q.val ∧ t = p.buyTotal q.val := by
  obtain ⟨nm, pr, qty, act, promo, var⟩ := p
  cases var with
  | standard =>
      simp only [Product.buy] at h
      by_cases c1 : ((PyNum.isInt q) = false ∨ q.val ≤ 0)
      · rw [if_pos c1] at h
        exact absurd h (by simp)
      · rw [if_neg c1] at h
        push_neg at c1
        by_cases c2 : q.val > qty
        · rw [if_pos c2] at h
          exact absurd h (by simp)
        · rw [if_neg c2] at h
          exact ⟨c1.2, by simpa using h.symm⟩
  | nonStocked =>
      simp only [Product.buy] at h
      by_cases c1 : q.val ≤ 0
      · rw [if_pos c1] at h
        exact absurd h (by simp)
      · rw [if_neg c1] at h
        exact ⟨not_le.mp c1, by simpa using h.symm⟩
  | limited m =>
      simp only [Product.buy] at h
      by_cases c1 : q.val ≤ 0
      · rw [if_pos c1] at h
        exact absurd h (by simp)
      · rw [if_neg c1] at h
        by_cases c2 : q.val > (m : ℚ)
        · rw [if_pos c2] at h
          exact absurd h (by simp)
        · rw [if_neg c2] at h
          by_cases c3 : q.val > qty
          · rw [if_pos c3] at h
            exact absurd h (by simp)
          · rw [if_neg c3] at h
            exact ⟨not_le.mp c1, by simpa using h.symm⟩

/-- C8 amended: provided the price is non-negative (as construction
guarantees) and any attached PercentDiscount has percent at most 100, every
successful buy returns a non-negative total; an out-of-range percent can
produce a negative total (see the counterexample). -/
theorem buy_total_nonneg (p : Product) (q : PyNum) (t : ℚ)
    (hp : 0 ≤ p.price) (hb : promotionBounded p.promotion)
    (h : (p.buy q).1 = .ok t) : 0 ≤ t := by
  obtain ⟨hq, ht⟩ := buy_ok_total p q t h
  rw [ht]
  cases hpromo : p.promotion with
  | none =>
      simp only [Product.buyTotal, hpromo]
      exact mul_nonneg hq.le hp
  | some promo =>
      rw [hpromo] at hb
      simp only [Product.buyTotal, hpromo]
      exact apply_promotion_nonneg promo p.price q.val hp hq hb

theorem buy_total_nonneg_witness : (0 : ℚ) ≤ 10 :=
  buy_total_nonneg ⟨"Pen", 10, 5, true, some (.percentDiscount "Half" 50), .standard⟩
    (.int 2) 10 (by norm_num) (by show (50 : ℚ) ≤ 100; norm_num)
    (by norm_num [Product.buy, Product.buyTotal, Promotion.apply_promotion, PyNum.isInt,
      PyNum.val])

/-- C9: SecondHalfPrice returns, for every positive integer quantity q,
`full * price + half * price / 2` with `full = q / 2` (integer division)
and `half = q - full`, except that q = 1 is special-cased to the full
price (a single unit is never halved); in particular apply(100, 1) = 100
and apply(100, 3) = 200. -/
theorem secondHalfPrice_spec (nm : String) (price : ℚ) (q : ℤ) (hq : 0 < q) :
    ((Promotion.secondHalfPrice nm).apply_promotion price (q : ℚ) =
       if q = 1 then price
       else ((q / 2 : ℤ) : ℚ) * price + ((q : ℚ) - ((q / 2 : ℤ) : ℚ)) * price / 2) ∧
    (Promotion.secondHalfPrice nm).apply_promotion 100 1 = 100 ∧
    (Promotion.secondHalfPrice nm).apply_promotion 100 3 = 200 := by
  have hfloor : ∀ n : ℤ, ⌊(n : ℚ) / 2⌋ = n / 2 := fun n => by
    exact_mod_cast Rat.floor_intCast_div_natCast n 2
  refine ⟨?_, ?_, ?_⟩
  · by_cases h1 : q = 1
    · subst h1
      simp [Promotion.apply_promotion]
    · have hne : ((q : ℚ)) ≠ 1 := by exact_mod_cast h1
      rw [if_neg h1]
      simp only [Promotion.apply_promotion]
      rw [if_neg hne, hfloor q]
  · simp [Promotion.apply_promotion]
  · simp only [Promotion.apply_promotion]
    rw [if_neg (by norm_num : (3 : ℚ) ≠ 1)]
    have h3 : ⌊(3 : ℚ) / 2⌋ = 1 := by
      rw [show ((3 : ℚ)) = ((3 : ℤ) : ℚ) by norm_num, hfloor 3]
      decide
    rw [h3]
    norm_num

theorem secondHalfPrice_spec_witness :
    (Promotion.secondHalfPrice "Second Half price!").apply_promotion 100 3 = 200 :=
  (secondHalfPrice_spec "Second Half price!" 100 3 (by norm_num)).2.2

/-- The total quantity splits into the active products' share and the
inactive products' share. -/
theorem total_quantity_split (l : List Product) :
    (l.map Product.quantity).sum =
      ((l.filter fun p => p.active).map Product.quantity).sum +
      ((l.filter fun p => !p.active).map Product.quantity).sum := by
  induction l with
  | nil => simp
  | cons hd tl ih =>
      by_cases h : hd.active = true
      · simp [List.filter_cons, h, ih]
        ring
      · simp [List.filter_cons, h, ih]
        ring

/-- C10: `get_all_products` returns exactly the active products, as a
sublist of the stored list (so in insertion order) that it does not
mutate, while `get_total_quantity` sums the quantities of all stored
products — the active and the inactive alike. -/
theorem store_queries_spec (s : Store) :
    (∀ p, p ∈ s.get_all_products ↔ p ∈ s.products ∧ p.active = true) ∧
    s.get_all_products.Sublist s.products ∧
    s.get_total_quantity =
      ((s.products.filter fun p => p.active).map Product.quantity).sum +
      ((s.products.filter fun p => !p.active).map Product.quantity).sum := by
  refine ⟨?_, ?_, ?_⟩
  · intro p
    simp [Store.get_all_products, List.mem_filter]
  · exact List.filter_sublist s.products
  · exact total_quantity_split s.products
